import Mathlib

/-!
Verification of the sample-image batch generator (`generateSampleImages.py`).

The program's pure logic is embedded shallowly:

* `pyInt` models Python's `int(s, base)` on a character list, including its
  leniency: surrounding whitespace, an optional single sign, and underscores
  between digits are accepted.
* `parse_color` models `parse_color` (hex branch guarded by a leading `#`,
  comma-separated branch, named-color lookup).
* `parse_aspect_ratio` models `parse_aspect_ratio`.
* `computeDims` models the landscape/portrait dimension computation in `main`;
  float arithmetic on the small integer inputs involved is modelled by exact
  rationals, and Python's `int()` truncation toward zero by `ratTrunc`.
  Division by zero (`v = 0`, or `aspect = 0.0`) is modelled as `none`.
* `fontSearchGo`/`fontSearch`/`get_font_size_to_fill` model the binary search
  of `get_font_size_to_fill`, with the external text-measurement collaborator
  abstracted as a function `measure : Nat → Int × Int` and font availability
  as a boolean.
* `batchRun` models the generation loop of `main`: per-index orientation
  decision (`draw < portraitFraction`), filename formatting (`{i:04d}.jpg`),
  and the fixed JPEG/quality-85 save of `generate_image`.
-/

/-- The six characters Python's `str.strip()` / `int()` treat as whitespace. -/
def isPySpace (c : Char) : Bool :=
  c.toNat = 32 || c.toNat = 9 || c.toNat = 10 || c.toNat = 13 || c.toNat = 11 || c.toNat = 12

/-- Raw digit value of a character: `0-9`, `a-z`, `A-Z`, as Python's `int` sees them
before the base bound is checked. -/
def digitValRaw (c : Char) : Option Nat :=
  if 48 ≤ c.toNat ∧ c.toNat ≤ 57 then some (c.toNat - 48)
  else if 97 ≤ c.toNat ∧ c.toNat ≤ 122 then some (c.toNat - 87)
  else if 65 ≤ c.toNat ∧ c.toNat ≤ 90 then some (c.toNat - 55)
  else none

/-- Digit value of a character in the given base, or `none` when invalid. -/
def digitVal (base : Nat) (c : Char) : Option Nat :=
  match digitValRaw c with
  | some v => if v < base then some v else none
  | none => none

/-- Continuation of digit parsing: digits, with single underscores allowed between
digits (Python 3 numeric-literal grouping accepted by `int`). -/
def digitsRest (base : Nat) (acc : Nat) : List Char → Option Nat
  | [] => some acc
  | c :: cs =>
    if c = '_' then
      match cs with
      | [] => none
      | d :: ds =>
        match digitVal base d with
        | some v => digitsRest base (acc * base + v) ds
        | none => none
    else
      match digitVal base c with
      | some v => digitsRest base (acc * base + v) cs
      | none => none

/-- Parse a nonempty digit sequence (underscore grouping allowed) in the given base. -/
def digitsParse (base : Nat) : List Char → Option Nat
  | [] => none
  | c :: cs =>
    match digitVal base c with
    | some v => digitsRest base v cs
    | none => none

/-- Remove trailing Python whitespace. -/
def stripRight : List Char → List Char
  | [] => []
  | c :: cs =>
    match stripRight cs with
    | [] => if isPySpace c then [] else [c]
    | r => c :: r

/-- Python `str.strip()`: remove leading and trailing whitespace. -/
def pyStrip (cs : List Char) : List Char :=
  stripRight (cs.dropWhile isPySpace)

/-- Python `int(s, base)` on a character list: strip whitespace, allow one
optional sign, then a nonempty digit sequence; `none` models `ValueError`. -/
def pyInt (base : Nat) (cs : List Char) : Option Int :=
  let t := pyStrip cs
  if t.head? = some '+' then (digitsParse base t.tail).map (fun n => (n : Int))
  else if t.head? = some '-' then (digitsParse base t.tail).map (fun n => -(n : Int))
  else (digitsParse base t).map (fun n => (n : Int))

/-- Python `str.split(sep)` for a single-character separator (keeps empty parts). -/
def splitOnChar (sep : Char) : List Char → List (List Char)
  | [] => [[]]
  | c :: cs =>
    if c = sep then [] :: splitOnChar sep cs
    else
      match splitOnChar sep cs with
      | [] => [[c]]
      | p :: ps => (c :: p) :: ps

/-- Combine three fallible channel parses; `none` models a propagating `ValueError`. -/
def triple? (a b c : Option Int) : Option (Int × Int × Int) :=
  match a, b, c with
  | some x, some y, some z => some (x, y, z)
  | _, _, _ => none

/-- Combine two fallible integer parses. -/
def pair? (a b : Option Int) : Option (Int × Int) :=
  match a, b with
  | some x, some y => some (x, y)
  | _, _ => none

/-- `parse_aspect_ratio`: split on `:`; exactly two integer parts, else error. -/
def parse_aspect_ratio (cs : List Char) : Option (Int × Int) :=
  match splitOnChar ':' cs with
  | [a, b] => pair? (pyInt 10 a) (pyInt 10 b)
  | _ => none

/-- The `named_colors` table of `parse_color`, keys as character lists. -/
def named_colors : List (List Char × (Int × Int × Int)) :=
  [(['d','a','r','k','g','r','a','y'], (64, 64, 64)),
   (['d','a','r','k','_','g','r','a','y'], (64, 64, 64)),
   (['l','i','g','h','t','g','r','a','y'], (192, 192, 192)),
   (['l','i','g','h','t','_','g','r','a','y'], (192, 192, 192)),
   (['w','h','i','t','e'], (255, 255, 255)),
   (['b','l','a','c','k'], (0, 0, 0)),
   (['r','e','d'], (255, 0, 0)),
   (['g','r','e','e','n'], (0, 255, 0)),
   (['b','l','u','e'], (0, 0, 255))]

/-- Dictionary lookup in `named_colors`. -/
def lookupNamed (t : List Char) : Option (Int × Int × Int) :=
  (named_colors.find? (fun p => decide (p.1 = t))).map (fun p => p.2)

/-- `color_str.lower().replace(' ', '_')`, character by character. -/
def nameKey (cs : List Char) : List Char :=
  cs.map (fun c => if Char.toLower c = ' ' then '_' else Char.toLower c)

/-- The 6-hex-digit branch: three 2-character slices through `int(·, 16)`. -/
def parseHex6 (h : List Char) : Option (Int × Int × Int) :=
  triple? (pyInt 16 (h.take 2)) (pyInt 16 ((h.drop 2).take 2)) (pyInt 16 ((h.drop 4).take 2))

/-- The 3-hex-digit branch: each character duplicated then `int(·, 16)`. -/
def parseHex3 (h : List Char) : Option (Int × Int × Int) :=
  match h with
  | [a, b, c] => triple? (pyInt 16 [a, a]) (pyInt 16 [b, b]) (pyInt 16 [c, c])
  | _ => none

/-- Comma branch then named-color branch of `parse_color` (taken when the hex
branch does not return). -/
def commaNamed (cs : List Char) : Option (Int × Int × Int) :=
  if ',' ∈ cs then
    match splitOnChar ',' cs with
    | [p1, p2, p3] => triple? (pyInt 10 p1) (pyInt 10 p2) (pyInt 10 p3)
    | _ => lookupNamed (nameKey cs)
  else lookupNamed (nameKey cs)

/-- `parse_color` on a character list; `none` models a raised `ValueError`. -/
def parse_colorL (cs : List Char) : Option (Int × Int × Int) :=
  if cs.head? = some '#' then
    let h := cs.dropWhile (fun c => c = '#')
    if h.length = 6 then parseHex6 h
    else if h.length = 3 then parseHex3 h
    else commaNamed cs
  else commaNamed cs

/-- `parse_color` on a string. -/
def parse_color (s : String) : Option (Int × Int × Int) :=
  parse_colorL s.data

/-- Python `int()` truncation toward zero of an exact rational. -/
def ratTrunc (q : ℚ) : Int :=
  Int.tdiv q.num (q.den : Int)

/-- The landscape-dimension computation of `main`, with its (identical) two
branches on `aspect >= 1` kept as in the source. -/
def landscapePair (aspect : ℚ) (longEdge : Int) : Int × Int :=
  if aspect ≥ 1 then (longEdge, ratTrunc ((longEdge : ℚ) / aspect))
  else (longEdge, ratTrunc ((longEdge : ℚ) / aspect))

/-- The single unconditional landscape computation stated by the spec
(landscape width = long edge, height = truncated long edge / aspect). -/
def landscapePairUncond (aspect : ℚ) (longEdge : Int) : Int × Int :=
  (longEdge, ratTrunc ((longEdge : ℚ) / aspect))

/-- Dimension computation of `main`: `none` models the `ZeroDivisionError`
raised by `h_ratio / v_ratio` when `v = 0`, or by `long_edge / aspect` when
`aspect = 0`. Returns (landscape, portrait); portrait is landscape swapped. -/
def computeDims (h v longEdge : Int) : Option ((Int × Int) × (Int × Int)) :=
  if v = 0 then none
  else if (h : ℚ) / (v : ℚ) = 0 then none
  else
    some (landscapePair ((h : ℚ) / (v : ℚ)) longEdge,
      ((landscapePair ((h : ℚ) / (v : ℚ)) longEdge).2,
       (landscapePair ((h : ℚ) / (v : ℚ)) longEdge).1))

/-- Decimal digits of `n` (auxiliary, fuel-based). -/
def decReprAux : Nat → Nat → List Char
  | 0, _ => []
  | fuel + 1, n =>
    if n = 0 then []
    else decReprAux fuel (n / 10) ++ [Char.ofNat (48 + n % 10)]

/-- Decimal representation of a natural number. -/
def decRepr (n : Nat) : List Char :=
  if n = 0 then ['0'] else decReprAux n n

/-- Python `f"{n:04d}"` for nonnegative `n`: pad with zeros to a minimum width 4. -/
def format04 (n : Nat) : String :=
  String.mk (List.replicate (4 - (decRepr n).length) '0' ++ decRepr n)

/-- Output filename for index `i`: `f"{i:04d}.jpg"`. -/
def filename (i : Nat) : String :=
  format04 i ++ ".jpg"

/-- One saved output file of a run, as observable from `generate_image`:
name, pixel size, orientation decision, save format and quality. -/
structure GeneratedFile where
  name : String
  width : Int
  height : Int
  isPortrait : Bool
  format : String
  quality : Nat
deriving DecidableEq

/-- The generation loop of `main`: for indices `1..count`, draw a value,
choose portrait when `draw < frac`, format the filename, and save as JPEG
at quality 85 (from `generate_image`). -/
def batchRun (draws : Nat → ℚ) (frac : ℚ) (count : Nat) (land port : Int × Int) :
    List GeneratedFile :=
  (List.range count).map (fun k =>
    let isP := decide (draws k < frac)
    { name := filename (k + 1)
      width := (if isP then port else land).1
      height := (if isP then port else land).2
      isPortrait := isP
      format := "JPEG"
      quality := 85 })

/-- Draw stream used by `main`: when a seed is supplied, the pseudo-random
generator is re-seeded so the stream is a function of the seed alone;
otherwise the draws come from ambient entropy. -/
def seededDraws (prng : Int → Nat → ℚ) (entropy : Nat → ℚ) (seed : Option Int) :
    Nat → ℚ :=
  match seed with
  | some s => prng s
  | none => entropy

/-- Fit test of `get_font_size_to_fill`: the measured text box at `size` is
within both limits. `measure` abstracts `draw.textbbox` width/height. -/
def fontFits (measure : Nat → Int × Int) (maxW maxH : Int) (size : Nat) : Bool :=
  decide ((measure size).1 ≤ maxW) && decide ((measure size).2 ≤ maxH)

/-- The binary-search loop of `get_font_size_to_fill` (fuel-based; the fuel
passed by `fontSearch` exceeds the interval length, so it never runs out). -/
def fontSearchGo (measure : Nat → Int × Int) (maxW maxH : Int) :
    Nat → Nat → Nat → Nat → Nat
  | 0, _, _, best => best
  | fuel + 1, lo, hi, best =>
    if lo ≤ hi then
      if fontFits measure maxW maxH ((lo + hi) / 2) then
        fontSearchGo measure maxW maxH fuel ((lo + hi) / 2 + 1) hi ((lo + hi) / 2)
      else
        fontSearchGo measure maxW maxH fuel lo ((lo + hi) / 2 - 1) best
    else best

/-- The size search of `get_font_size_to_fill`: min size 10, max size
`min(maxW, maxH) * 2`, best initialized to 10. -/
def fontSearch (measure : Nat → Int × Int) (maxW maxH : Int) : Nat :=
  fontSearchGo measure maxW maxH ((min maxW maxH * 2).toNat + 2) 10
    ((min maxW maxH * 2).toNat) 10

/-- A font resource: the unscalable default, or a scalable font at a size. -/
inductive FontResource where
  | defaultFont : FontResource
  | scaled : Nat → FontResource
deriving DecidableEq

/-- `get_font_size_to_fill`: when no scalable font resource loads, every path
returns the unscalable default immediately; otherwise the binary-search size
is used. -/
def get_font_size_to_fill (scalableAvail : Bool) (measure : Nat → Int × Int)
    (maxW maxH : Int) : FontResource :=
  if scalableAvail then FontResource.scaled (fontSearch measure maxW maxH)
  else FontResource.defaultFont

/-- Inputs on which the hex branch of `parse_color` returns a triple: a leading
`#`, and after stripping `#`s either 6 characters whose three 2-slices all pass
`int(·, 16)`, or 3 characters each passing `int(c*2, 16)`. -/
def acceptedHex (cs : List Char) : Bool :=
  decide (cs.head? = some '#') &&
    ((decide ((cs.dropWhile (fun c => c = '#')).length = 6) &&
        (pyInt 16 ((cs.dropWhile (fun c => c = '#')).take 2)).isSome &&
        (pyInt 16 (((cs.dropWhile (fun c => c = '#')).drop 2).take 2)).isSome &&
        (pyInt 16 (((cs.dropWhile (fun c => c = '#')).drop 4).take 2)).isSome) ||
      (decide ((cs.dropWhile (fun c => c = '#')).length = 3) &&
        (cs.dropWhile (fun c => c = '#')).all (fun c => (pyInt 16 [c, c]).isSome)))

/-- Inputs on which the comma branch of `parse_color` returns a triple:
a comma is present, the split has exactly 3 parts, and each part passes
`int(·)`. -/
def acceptedComma (cs : List Char) : Bool :=
  decide (',' ∈ cs) && decide ((splitOnChar ',' cs).length = 3) &&
    (splitOnChar ',' cs).all (fun p => (pyInt 10 p).isSome)

/-- Inputs on which the named-color branch of `parse_color` returns a triple. -/
def acceptedNamed (cs : List Char) : Bool :=
  (lookupNamed (nameKey cs)).isSome

/-- Inputs on which `parse_color` returns a triple rather than raising. -/
def acceptedAny (cs : List Char) : Bool :=
  acceptedHex cs || acceptedComma cs || acceptedNamed cs

/-- A true hexadecimal digit (`0-9a-fA-F`). -/
def isHexDigit (c : Char) : Bool :=
  (digitVal 16 c).isSome

/-- The hex syntax as the spec words it: optionally prefixed with `#`, then
exactly 6 or exactly 3 hex digits. -/
def specHexSyntax (cs : List Char) : Bool :=
  (decide ((if cs.head? = some '#' then cs.tail else cs).length = 6) ||
      decide ((if cs.head? = some '#' then cs.tail else cs).length = 3)) &&
    (if cs.head? = some '#' then cs.tail else cs).all isHexDigit

/-- The comma syntax as the spec words it: exactly 3 integer components. -/
def specCommaSyntax (cs : List Char) : Bool :=
  decide ((splitOnChar ',' cs).length = 3) &&
    (splitOnChar ',' cs).all (fun p => (pyInt 10 p).isSome)

/-- The named-color syntax as the spec words it. -/
def specNamedSyntax (cs : List Char) : Bool :=
  (lookupNamed (nameKey cs)).isSome

/-- A measurement collaborator whose text box is 5×5 at every size. -/
def measureBig : Nat → Int × Int := fun _ => (5, 5)

/-- A measurement collaborator whose text box grows linearly with the size. -/
def measureLinear : Nat → Int × Int := fun s => ((s : Int), (s : Int))

/-- A character with a digit value lies in one of the three alphanumeric ranges. -/
theorem digitVal_toNat_ranges (base : Nat) (c : Char) (v : Nat)
    (h : digitVal base c = some v) :
    (48 ≤ c.toNat ∧ c.toNat ≤ 57) ∨ (97 ≤ c.toNat ∧ c.toNat ≤ 122) ∨
      (65 ≤ c.toNat ∧ c.toNat ≤ 90) := by
  unfold digitVal at h
  cases hraw : digitValRaw c with
  | none => simp [hraw] at h
  | some w =>
    unfold digitValRaw at hraw
    split_ifs at hraw with h1 h2 h3
    · exact Or.inl h1
    · exact Or.inr (Or.inl h2)
    · exact Or.inr (Or.inr h3)

/-- A character with a digit value is not Python whitespace, not a sign,
not an underscore, and not `#`. -/
theorem digitVal_excl (base : Nat) (c : Char) (v : Nat)
    (h : digitVal base c = some v) :
    isPySpace c = false ∧ c ≠ '+' ∧ c ≠ '-' ∧ c ≠ '_' ∧ c ≠ '#' := by
  have hr := digitVal_toNat_ranges base c v h
  refine ⟨?_, ?_, ?_, ?_, ?_⟩
  · simp only [isPySpace, Bool.or_eq_false_iff, decide_eq_false_iff_not]
    omega
  · intro hc; rw [hc] at hr; revert hr; decide
  · intro hc; rw [hc] at hr; revert hr; decide
  · intro hc; rw [hc] at hr; revert hr; decide
  · intro hc; rw [hc] at hr; revert hr; decide

/-- `stripRight` leaves a list of non-whitespace characters unchanged. -/
theorem stripRight_eq_self (cs : List Char) (h : ∀ c ∈ cs, isPySpace c = false) :
    stripRight cs = cs := by
  induction cs with
  | nil => rfl
  | cons c t ih =>
    have ht : stripRight t = t := ih (fun x hx => h x (List.mem_cons_of_mem c hx))
    unfold stripRight
    rw [ht]
    cases t with
    | nil => simp [h c (List.mem_cons_self c [])]
    | cons x xs => rfl

/-- `pyStrip` leaves a list of non-whitespace characters unchanged. -/
theorem pyStrip_eq_self (cs : List Char) (h : ∀ c ∈ cs, isPySpace c = false) :
    pyStrip cs = cs := by
  unfold pyStrip
  have hd : cs.dropWhile isPySpace = cs := by
    cases cs with
    | nil => rfl
    | cons c t => simp [List.dropWhile_cons, h c (List.mem_cons_self c t)]
  rw [hd]
  exact stripRight_eq_self cs h

/-- `int(·, base)` on a two-digit-character list yields the positional value. -/
theorem pyInt_two (base : Nat) (a b : Char) (va vb : Nat)
    (ha : digitVal base a = some va) (hb : digitVal base b = some vb) :
    pyInt base [a, b] = some ((va * base + vb : Nat) : Int) := by
  obtain ⟨hsa, hpa, hma, hua, _⟩ := digitVal_excl base a va ha
  obtain ⟨hsb, hpb, hmb, hub, _⟩ := digitVal_excl base b vb hb
  have hstrip : pyStrip [a, b] = [a, b] := by
    refine pyStrip_eq_self [a, b] ?_
    intro c hc
    simp only [List.mem_cons, List.not_mem_nil, or_false] at hc
    rcases hc with rfl | rfl
    · exact hsa
    · exact hsb
  have h1 : digitsParse base [a, b] = some (va * base + vb) := by
    simp only [digitsParse, ha]
    simp only [digitsRest, if_neg hub, hb]
  unfold pyInt
  rw [hstrip]
  simp only [List.head?_cons]
  rw [if_neg (by simp [hpa]), if_neg (by simp [hma])]
  rw [h1]
  rfl

/-- `int(·, base)` on a single-digit-character list yields that digit. -/
theorem pyInt_one (base : Nat) (a : Char) (va : Nat)
    (ha : digitVal base a = some va) :
    pyInt base [a] = some ((va : Nat) : Int) := by
  obtain ⟨hsa, hpa, hma, _, _⟩ := digitVal_excl base a va ha
  have hstrip : pyStrip [a] = [a] := by
    refine pyStrip_eq_self [a] ?_
    intro c hc
    simp only [List.mem_cons, List.not_mem_nil, or_false] at hc
    rw [hc]
    exact hsa
  have h1 : digitsParse base [a] = some va := by
    simp only [digitsParse, ha]
    simp only [digitsRest]
  unfold pyInt
  rw [hstrip]
  simp only [List.head?_cons]
  rw [if_neg (by simp [hpa]), if_neg (by simp [hma])]
  rw [h1]
  rfl

/-- `digitVal` of `#` fails in every base. -/
theorem digitVal_hash (base : Nat) : digitVal base '#' = none := by
  unfold digitVal
  have h : digitValRaw '#' = none := by decide
  rw [h]

/-- Unfolding equation for `stripRight` on a cons cell. -/
theorem stripRight_cons (c : Char) (cs : List Char) :
    stripRight (c :: cs) = match stripRight cs with
      | [] => if isPySpace c then [] else [c]
      | r => c :: r := rfl

/-- `int(·, base)` fails on any input whose first character is `#`. -/
theorem pyInt_hash (base : Nat) (t : List Char) : pyInt base ('#' :: t) = none := by
  have hsp : isPySpace '#' = false := by decide
  have hdrop : ('#' :: t).dropWhile isPySpace = '#' :: t := by
    simp [List.dropWhile_cons, hsp]
  have hstrip : ∃ r, pyStrip ('#' :: t) = '#' :: r := by
    unfold pyStrip
    rw [hdrop, stripRight_cons]
    cases hs : stripRight t with
    | nil => exact ⟨[], by simp [hsp]⟩
    | cons x xs => exact ⟨x :: xs, rfl⟩
  have hparse : ∀ r, digitsParse base ('#' :: r) = none := by
    intro r
    simp [digitsParse, digitVal_hash]
  obtain ⟨r, hr⟩ := hstrip
  unfold pyInt
  rw [hr]
  simp only [List.head?_cons]
  rw [if_neg (by decide), if_neg (by decide)]
  rw [hparse r]
  rfl

/-- `splitOnChar` never returns the empty list. -/
theorem splitOnChar_ne_nil (sep : Char) (cs : List Char) :
    splitOnChar sep cs ≠ [] := by
  induction cs with
  | nil => simp [splitOnChar]
  | cons c t ih =>
    unfold splitOnChar
    split
    · simp
    · cases hs : splitOnChar sep t with
      | nil => simp
      | cons p ps => simp

/-- Splitting a list whose head is not the separator conses the head onto the
first part. -/
theorem splitOnChar_cons_ne (sep c : Char) (cs : List Char) (h : ¬ c = sep) :
    ∃ p ps, splitOnChar sep cs = p :: ps ∧
      splitOnChar sep (c :: cs) = (c :: p) :: ps := by
  cases hs : splitOnChar sep cs with
  | nil => exact absurd hs (splitOnChar_ne_nil sep cs)
  | cons p ps =>
    refine ⟨p, ps, rfl, ?_⟩
    unfold splitOnChar
    rw [if_neg h, hs]

/-- Splitting around an explicit separator occurrence. -/
theorem splitOnChar_append (sep : Char) (l r : List Char) (h : sep ∉ l) :
    splitOnChar sep (l ++ sep :: r) = l :: splitOnChar sep r := by
  induction l with
  | nil => simp [splitOnChar]
  | cons c t ih =>
    have hc : ¬ c = sep := fun hcs => h (hcs ▸ List.mem_cons_self c t)
    have ht : sep ∉ t := fun hts => h (List.mem_cons_of_mem c hts)
    rw [List.cons_append]
    obtain ⟨p, ps, hs, hcons⟩ := splitOnChar_cons_ne sep c (t ++ sep :: r) hc
    rw [hcons]
    rw [ih ht] at hs
    injection hs with h3 h4
    rw [← h3, ← h4]

/-- Splitting a list that does not contain the separator. -/
theorem splitOnChar_no_sep (sep : Char) (l : List Char) (h : sep ∉ l) :
    splitOnChar sep l = [l] := by
  induction l with
  | nil => rfl
  | cons c t ih =>
    have hc : ¬ c = sep := fun hcs => h (hcs ▸ List.mem_cons_self c t)
    have ht : sep ∉ t := fun hts => h (List.mem_cons_of_mem c hts)
    obtain ⟨p, ps, hs, hcons⟩ := splitOnChar_cons_ne sep c t hc
    rw [ih ht] at hs
    injection hs with h3 h4
    rw [hcons, ← h3, ← h4]

/-- `triple?` fails exactly when one of the components fails. -/
theorem triple?_eq_none_iff (a b c : Option Int) :
    triple? a b c = none ↔ (a.isSome && b.isSome && c.isSome) = false := by
  cases a <;> cases b <;> cases c <;> simp [triple?]

/-- Looking up a name that starts with `#` fails. -/
theorem lookupNamed_hash (t : List Char) : lookupNamed ('#' :: t) = none := by
  simp [lookupNamed, named_colors, List.find?]

/-- Looking up a name that contains a comma fails. -/
theorem lookupNamed_comma (t : List Char) (h : ',' ∈ t) : lookupNamed t = none := by
  unfold lookupNamed
  rw [List.find?_eq_none.mpr]
  · rfl
  · intro p hp
    simp only [named_colors, List.mem_cons, List.not_mem_nil, or_false] at hp
    simp only [decide_eq_true_eq]
    rcases hp with rfl | rfl | rfl | rfl | rfl | rfl | rfl | rfl | rfl
    all_goals (intro heq; rw [← heq] at h; exact absurd h (by decide))

/-- `nameKey` maps a leading `#` to a leading `#`. -/
theorem nameKey_hash_cons (t : List Char) :
    nameKey ('#' :: t) = '#' :: nameKey t := by
  unfold nameKey
  rw [List.map_cons]
  congr 1

/-- `nameKey` preserves membership of the comma. -/
theorem nameKey_comma_mem (cs : List Char) (h : ',' ∈ cs) : ',' ∈ nameKey cs := by
  unfold nameKey
  exact List.mem_map.mpr ⟨',', h, by decide⟩

/-- A `#`-headed string never matches the named branch. -/
theorem acceptedNamed_hash (t : List Char) : acceptedNamed ('#' :: t) = false := by
  unfold acceptedNamed
  rw [nameKey_hash_cons, lookupNamed_hash]
  rfl

/-- A `#`-headed string never matches the comma branch. -/
theorem acceptedComma_hash (t : List Char) : acceptedComma ('#' :: t) = false := by
  unfold acceptedComma
  by_cases hc : ',' ∈ ('#' :: t)
  · obtain ⟨p, ps, hs, hcons⟩ := splitOnChar_cons_ne ',' '#' t (by decide)
    rw [hcons]
    simp [pyInt_hash]
  · simp [hc]

/-- The comma-then-named tail of `parse_color` fails exactly when neither the
comma nor the named branch accepts. -/
theorem commaNamed_none_iff (cs : List Char) :
    commaNamed cs = none ↔ (acceptedComma cs || acceptedNamed cs) = false := by
  unfold commaNamed acceptedComma acceptedNamed
  by_cases hc : ',' ∈ cs
  · rw [if_pos hc]
    have hlook : lookupNamed (nameKey cs) = none :=
      lookupNamed_comma _ (nameKey_comma_mem cs hc)
    cases hsp : splitOnChar ',' cs with
    | nil => exact absurd hsp (splitOnChar_ne_nil ',' cs)
    | cons p1 rest =>
      cases rest with
      | nil => simp [hsp, hlook, hc]
      | cons p2 rest2 =>
        cases rest2 with
        | nil => simp [hsp, hlook, hc]
        | cons p3 rest3 =>
          cases rest3 with
          | nil => simp [hsp, hlook, hc, triple?_eq_none_iff]
          | cons p4 rest4 => simp [hsp, hlook, hc]
  · rw [if_neg hc]
    cases hl : lookupNamed (nameKey cs) with
    | none => simp [hc, hl]
    | some v => simp [hc, hl]

/-- `parse_color` raises exactly when none of the three branches accepts
(each branch's components read with Python `int` leniency). -/
theorem parse_colorL_none_iff (cs : List Char) :
    parse_colorL cs = none ↔ acceptedAny cs = false := by
  cases cs with
  | nil => decide
  | cons c t =>
    by_cases hch : c = '#'
    · subst hch
      have hhead : (('#' : Char) :: t).head? = some '#' := rfl
      have hcf := acceptedComma_hash t
      have hnf := acceptedNamed_hash t
      have hdw : List.dropWhile (fun c => decide (c = '#')) ('#' :: t)
          = List.dropWhile (fun c => decide (c = '#')) t := by
        simp [List.dropWhile_cons]
      unfold parse_colorL acceptedAny acceptedHex
      rw [if_pos hhead, hcf, hnf, hdw]
      by_cases h6 : (List.dropWhile (fun c => decide (c = '#')) t).length = 6
      · rw [if_pos h6]
        unfold parseHex6
        rw [triple?_eq_none_iff]
        simp [hhead, h6, show ¬ (List.dropWhile (fun c => decide (c = '#')) t).length = 3 by
          omega]
      · rw [if_neg h6]
        by_cases h3 : (List.dropWhile (fun c => decide (c = '#')) t).length = 3
        · rw [if_pos h3]
          obtain ⟨x, y, z, hxyz⟩ := List.length_eq_three.mp h3
          rw [hxyz]
          unfold parseHex3
          rw [triple?_eq_none_iff]
          simp [hhead, h6, h3, hxyz]
        · rw [if_neg h3, commaNamed_none_iff, hcf, hnf]
          simp [hhead, h6, h3]
    · have hhead : ¬ ((c :: t).head? = some '#') := by simp [hch]
      have hhf : acceptedHex (c :: t) = false := by
        unfold acceptedHex
        simp [hch]
      unfold parse_colorL acceptedAny
      rw [if_neg hhead, commaNamed_none_iff, hhf]
      simp

/-- Loop invariant of the font-size binary search: the running best starts at
10, only ever moves to a probed size that fit, and never goes below 10. -/
theorem fontSearchGo_inv (measure : Nat → Int × Int) (maxW maxH : Int) :
    ∀ (fuel lo hi best : Nat), 10 ≤ lo → 10 ≤ best →
      (best = 10 ∨ fontFits measure maxW maxH best = true) →
      10 ≤ fontSearchGo measure maxW maxH fuel lo hi best ∧
        (fontSearchGo measure maxW maxH fuel lo hi best = 10 ∨
          fontFits measure maxW maxH (fontSearchGo measure maxW maxH fuel lo hi best)
            = true) := by
  intro fuel
  induction fuel with
  | zero =>
    intro lo hi best hlo hbest hfit
    exact ⟨hbest, hfit⟩
  | succ m ih =>
    intro lo hi best hlo hbest hfit
    unfold fontSearchGo
    by_cases hle : lo ≤ hi
    · rw [if_pos hle]
      by_cases hf : fontFits measure maxW maxH ((lo + hi) / 2) = true
      · rw [if_pos hf]
        have hmid : 10 ≤ (lo + hi) / 2 := by omega
        exact ih ((lo + hi) / 2 + 1) hi ((lo + hi) / 2) (by omega) hmid (Or.inr hf)
      · rw [if_neg hf]
        exact ih lo ((lo + hi) / 2 - 1) best hlo hbest hfit
    · rw [if_neg hle]
      exact ⟨hbest, hfit⟩

/-- The decimal digit list of `n < 10^k` has at most `k` digits. -/
theorem decReprAux_length (fuel : Nat) :
    ∀ n k : Nat, n < 10 ^ k → (decReprAux fuel n).length ≤ k := by
  induction fuel with
  | zero =>
    intro n k h
    simp [decReprAux]
  | succ m ih =>
    intro n k h
    unfold decReprAux
    by_cases hn : n = 0
    · simp [hn]
    · rw [if_neg hn]
      have hk : k ≠ 0 := by
        intro hk0
        rw [hk0, pow_zero] at h
        omega
      obtain ⟨k', rfl⟩ : ∃ k', k = k' + 1 := ⟨k - 1, by omega⟩
      have hpow : (10 : Nat) ^ (k' + 1) = 10 * 10 ^ k' := by ring
      rw [hpow] at h
      have h10 : n / 10 < 10 ^ k' := by omega
      have hrec := ih (n / 10) k' h10
      simp only [List.length_append, List.length_singleton]
      omega

/-- For `n ≤ 9999` the zero-padded field has exactly four characters. -/
theorem format04_length (n : Nat) (h : n ≤ 9999) : (format04 n).length = 4 := by
  have hlen : (decRepr n).length ≤ 4 := by
    unfold decRepr
    by_cases hn : n = 0
    · simp [hn]
    · rw [if_neg hn]
      exact decReprAux_length n n 4 (by omega)
  have hpos : 1 ≤ (decRepr n).length ∨ (decRepr n).length = 0 := by omega
  show (String.mk (List.replicate (4 - (decRepr n).length) '0' ++ decRepr n)).length = 4
  simp [String.length, List.length_append, List.length_replicate]
  omega

/-- C2 (counterexample): a valid 3-digit hex string without the leading `#`
is rejected by `parse_color`, contradicting the claim's "with or without a
leading '#'". -/
theorem c2_counterexample :
    parse_color "fff" = none ∧ ¬ parse_color "fff" = some (255, 255, 255) := by
  decide

/-- C2 (amended): for every valid hex color string of length 3 or 6 hex digits
prefixed with `#`, `parse_color` returns the RGB triple obtained by reading
6 digits as three two-digit channels, and for 3 digits by duplicating each
digit; without the leading `#` the hex branch is not tried. -/
theorem c2_hex_parsing (a b c d e f : Char) (va vb vc vd ve vf : Nat)
    (ha : digitVal 16 a = some va) (hb : digitVal 16 b = some vb)
    (hc : digitVal 16 c = some vc) (hd : digitVal 16 d = some vd)
    (he : digitVal 16 e = some ve) (hf : digitVal 16 f = some vf) :
    parse_color (String.mk ['#', a, b, c, d, e, f])
      = some (((va * 16 + vb : Nat) : Int), ((vc * 16 + vd : Nat) : Int),
          ((ve * 16 + vf : Nat) : Int)) ∧
    parse_color (String.mk ['#', a, b, c])
      = some (((va * 16 + va : Nat) : Int), ((vb * 16 + vb : Nat) : Int),
          ((vc * 16 + vc : Nat) : Int)) := by
  have hna : ¬ a = '#' := (digitVal_excl 16 a va ha).2.2.2.2
  constructor
  · show parse_colorL ['#', a, b, c, d, e, f] = _
    unfold parse_colorL
    rw [if_pos (show (['#', a, b, c, d, e, f] : List Char).head? = some '#' from rfl)]
    have hdw : List.dropWhile (fun x => decide (x = '#')) ['#', a, b, c, d, e, f]
        = [a, b, c, d, e, f] := by
      simp [List.dropWhile_cons, hna]
    rw [hdw]
    rw [if_pos (show ([a, b, c, d, e, f] : List Char).length = 6 from rfl)]
    show triple? (pyInt 16 [a, b]) (pyInt 16 [c, d]) (pyInt 16 [e, f]) = _
    rw [pyInt_two 16 a b va vb ha hb, pyInt_two 16 c d vc vd hc hd,
      pyInt_two 16 e f ve vf he hf]
    rfl
  · show parse_colorL ['#', a, b, c] = _
    unfold parse_colorL
    rw [if_pos (show (['#', a, b, c] : List Char).head? = some '#' from rfl)]
    have hdw : List.dropWhile (fun x => decide (x = '#')) ['#', a, b, c]
        = [a, b, c] := by
      simp [List.dropWhile_cons, hna]
    rw [hdw]
    rw [if_neg (show ¬ ([a, b, c] : List Char).length = 6 by simp)]
    rw [if_pos (show ([a, b, c] : List Char).length = 3 from rfl)]
    show triple? (pyInt 16 [a, a]) (pyInt 16 [b, b]) (pyInt 16 [c, c]) = _
    rw [pyInt_two 16 a a va va ha ha, pyInt_two 16 b b vb vb hb hb,
      pyInt_two 16 c c vc vc hc hc]
    rfl

/-- Witness for C2's amended theorem at the concrete strings `#1a2b3c` and
`#1a2`. -/
theorem c2_hex_parsing_witness :
    parse_color (String.mk ['#', '1', 'a', '2', 'b', '3', 'c'])
      = some (((1 * 16 + 10 : Nat) : Int), ((2 * 16 + 11 : Nat) : Int),
          ((3 * 16 + 12 : Nat) : Int)) ∧
    parse_color (String.mk ['#', '1', 'a', '2'])
      = some (((1 * 16 + 1 : Nat) : Int), ((10 * 16 + 10 : Nat) : Int),
          ((2 * 16 + 2 : Nat) : Int)) :=
  c2_hex_parsing '1' 'a' '2' 'b' '3' 'c' 1 10 2 11 3 12 (by decide) (by decide)
    (by decide) (by decide) (by decide) (by decide)

/-- C3 (counterexample): with aspect ratio 2:3 and long edge 3000 the code
computes landscape dimensions (3000, 4500), not the claimed (3000, 2000). -/
theorem c3_counterexample :
    computeDims 2 3 3000 = some ((3000, 4500), (4500, 3000)) ∧
    ¬ ((3000, 4500) : Int × Int) = ((3000, 2000) : Int × Int) := by
  constructor
  · norm_num [computeDims, landscapePair, ratTrunc]
  · decide

/-- C3 (amended): with aspect ratio 2:3 and long edge 3000 the landscape
dimensions are (3000, 4500), the height being the truncation of
3000 / (2/3) = 4500, and the portrait dimensions are the landscape pair
swapped. -/
theorem c3_dims_2_3 :
    computeDims 2 3 3000 = some ((3000, 4500), (4500, 3000)) ∧
    ratTrunc ((3000 : ℚ) / ((2 : ℚ) / (3 : ℚ))) = 4500 := by
  constructor
  · norm_num [computeDims, landscapePair, ratTrunc]
  · norm_num [ratTrunc]

/-- C4: the `aspect >= 1` and `aspect < 1` branches of the landscape
computation produce identical results, so the branching computation equals
the single unconditional computation. -/
theorem c4_branch_equiv (a : ℚ) (e : Int) :
    landscapePair a e = landscapePairUncond a e := by
  unfold landscapePair landscapePairUncond
  split
  · rfl
  · rfl

/-- C5: with aspect ratio 3:2 and long edge 3000 the landscape dimensions are
(3000, 2000) and the portrait dimensions (2000, 3000); in general the
portrait pair is the landscape pair swapped. -/
theorem c5_portrait_swap (h v e : Int) (land pr : Int × Int)
    (hcd : computeDims h v e = some (land, pr)) :
    pr = (land.2, land.1) ∧
    computeDims 3 2 3000 = some ((3000, 2000), (2000, 3000)) := by
  constructor
  · unfold computeDims at hcd
    split_ifs at hcd with hv ha
    injection hcd with hp
    injection hp with h1 h2
    rw [← h2, ← h1]
  · norm_num [computeDims, landscapePair, ratTrunc]

/-- Witness for C5 at aspect ratio 3:2 and long edge 3000. -/
theorem c5_portrait_swap_witness :
    ((2000, 3000) : Int × Int) = (((3000, 2000) : Int × Int).2,
        ((3000, 2000) : Int × Int).1) ∧
    computeDims 3 2 3000 = some ((3000, 2000), (2000, 3000)) :=
  c5_portrait_swap 3 2 3000 (3000, 2000) (2000, 3000)
    (by norm_num [computeDims, landscapePair, ratTrunc])

/-- C8 (counterexample): `#+1+2+3` is accepted by `parse_color` (Python's
lenient `int(·, 16)` reads each signed pair) although it matches none of the
three documented syntaxes. -/
theorem c8_counterexample :
    parse_color "#+1+2+3" = some (1, 2, 3) ∧
    specHexSyntax "#+1+2+3".data = false ∧
    specCommaSyntax "#+1+2+3".data = false ∧
    specNamedSyntax "#+1+2+3".data = false := by
  decide

/-- C8 (amended): `parse_color` raises exactly when none of the three branches
accepts, where the hex and comma components are read with Python `int`
leniency (signs, surrounding whitespace and underscore grouping); in
particular it fails on `notacolor` and `1,2`, and out-of-range numeric
channels pass through unchanged. -/
theorem c8_error_iff (s : String) :
    (parse_color s = none ↔ acceptedAny s.data = false) ∧
    parse_color "notacolor" = none ∧ parse_color "1,2" = none ∧
    parse_color "300,-5,999" = some (300, -5, 999) := by
  exact ⟨parse_colorL_none_iff s.data, by decide, by decide, by decide⟩

/-- C10: for any integer numerator string, `parse_aspect_ratio` accepts
`H:0` and returns (H, 0), and the subsequent aspect computation in `main`
divides by zero, so no dimensions are computed. -/
theorem c10_zero_vertical (s : List Char) (n : Int)
    (hp : pyInt 10 s = some n) (hcol : ¬ ':' ∈ s) :
    parse_aspect_ratio (s ++ [':', '0']) = some (n, 0) ∧
    ∀ h e : Int, computeDims h 0 e = none := by
  constructor
  · unfold parse_aspect_ratio
    rw [splitOnChar_append ':' s ['0'] hcol]
    rw [(by decide : splitOnChar ':' (['0'] : List Char) = [['0']])]
    show pair? (pyInt 10 s) (pyInt 10 ['0']) = some (n, 0)
    rw [hp, (by decide : pyInt 10 (['0'] : List Char) = some 0)]
    rfl
  · intro h e
    unfold computeDims
    rw [if_pos rfl]

/-- Witness for C10 at the concrete aspect-ratio string `3:0`. -/
theorem c10_zero_vertical_witness :
    parse_aspect_ratio (['3'] ++ [':', '0']) = some (3, 0) ∧
    ∀ h e : Int, computeDims h 0 e = none :=
  c10_zero_vertical ['3'] 3 (by decide) (by decide)

/-- C1 (counterexample): with a scalable font available and positive bounds
1×1, `get_font_size_to_fill` returns the scalable font at size 10 although
its measured box 5×5 exceeds both bounds. -/
theorem c1_counterexample :
    get_font_size_to_fill true measureBig 1 1 = FontResource.scaled 10 ∧
    ¬ ((measureBig 10).1 ≤ 1 ∧ (measureBig 10).2 ≤ 1) ∧ (0 : Int) < 1 := by
  decide

/-- C1 (amended): for positive bounds, when no scalable font loads the
unscalable default is returned; otherwise the returned size is never below
10, and its measured box fits within the bounds unless the size is the
floor value 10, which is returned even when nothing fits. -/
theorem c1_font_size_bounds (measure : Nat → Int × Int) (maxW maxH : Int)
    (hW : 0 < maxW) (hH : 0 < maxH) :
    get_font_size_to_fill false measure maxW maxH = FontResource.defaultFont ∧
    ∀ n, get_font_size_to_fill true measure maxW maxH = FontResource.scaled n →
      10 ≤ n ∧ (fontFits measure maxW maxH n = true ∨ n = 10) := by
  constructor
  · rfl
  · intro n hn
    unfold get_font_size_to_fill at hn
    rw [if_pos rfl] at hn
    injection hn with hn2
    subst hn2
    have hinv := fontSearchGo_inv measure maxW maxH
      ((min maxW maxH * 2).toNat + 2) 10 ((min maxW maxH * 2).toNat) 10
      (le_refl 10) (le_refl 10) (Or.inl rfl)
    exact ⟨hinv.1, hinv.2.symm⟩

/-- Witness for C1's amended theorem with a linearly growing text box and
bounds 100×100. -/
theorem c1_font_size_bounds_witness :
    get_font_size_to_fill false measureLinear 100 100 = FontResource.defaultFont ∧
    ∀ n, get_font_size_to_fill true measureLinear 100 100 = FontResource.scaled n →
      10 ≤ n ∧ (fontFits measureLinear 100 100 n = true ∨ n = 10) :=
  c1_font_size_bounds measureLinear 100 100 (by decide) (by decide)

/-- C6: with portrait fraction 0 every generated image is landscape, and with
portrait fraction 1 every generated image is portrait, for every draw stream
in [0, 1) and every count. -/
theorem c6_extreme_fractions (draws : Nat → ℚ) (count : Nat) (land port : Int × Int)
    (h : ∀ i, 0 ≤ draws i ∧ draws i < 1) :
    (∀ f ∈ batchRun draws 0 count land port,
        f.isPortrait = false ∧ f.width = land.1 ∧ f.height = land.2) ∧
    (∀ f ∈ batchRun draws 1 count land port,
        f.isPortrait = true ∧ f.width = port.1 ∧ f.height = port.2) := by
  constructor
  · intro f hf
    unfold batchRun at hf
    simp only [List.mem_map, List.mem_range] at hf
    obtain ⟨k, hk, rfl⟩ := hf
    have h0 : ¬ draws k < 0 := not_lt.mpr (h k).1
    simp [h0]
  · intro f hf
    unfold batchRun at hf
    simp only [List.mem_map, List.mem_range] at hf
    obtain ⟨k, hk, rfl⟩ := hf
    have h1 : draws k < 1 := (h k).2
    simp [h1]

/-- Witness for C6 with the constant draw stream 1/2 and count 2. -/
theorem c6_extreme_fractions_witness :
    (∀ f ∈ batchRun (fun _ => (1 : ℚ) / 2) 0 2 (3000, 2000) (2000, 3000),
        f.isPortrait = false ∧ f.width = ((3000, 2000) : Int × Int).1 ∧
          f.height = ((3000, 2000) : Int × Int).2) ∧
    (∀ f ∈ batchRun (fun _ => (1 : ℚ) / 2) 1 2 (3000, 2000) (2000, 3000),
        f.isPortrait = true ∧ f.width = ((2000, 3000) : Int × Int).1 ∧
          f.height = ((2000, 3000) : Int × Int).2) :=
  c6_extreme_fractions (fun _ => (1 : ℚ) / 2) 2 (3000, 2000) (2000, 3000)
    (fun _ => ⟨by norm_num, by norm_num⟩)

/-- C7: when a seed is supplied, the orientation sequence of a run is a
function of the seed, count and fraction alone: it does not depend on the
ambient entropy source. -/
theorem c7_seed_determinism (prng : Int → Nat → ℚ) (e1 e2 : Nat → ℚ) (s : Int)
    (frac : ℚ) (count : Nat) (land port : Int × Int) :
    (batchRun (seededDraws prng e1 (some s)) frac count land port).map
        (fun f => f.isPortrait)
      = (batchRun (seededDraws prng e2 (some s)) frac count land port).map
        (fun f => f.isPortrait) := rfl

/-- C9 (counterexample): at index 10000 the filename's numeric part has five
digits, so the width is not fixed at 4 regardless of count magnitude. -/
theorem c9_counterexample :
    filename 10000 = "10000.jpg" ∧ ¬ (format04 10000).length = 4 := by
  decide

/-- C9 (amended): a run of `count` images produces exactly `count` files, the
`i`-th named `{i:04d}.jpg` and saved as JPEG at quality 85; the numeric field
is zero-padded to a minimum of four digits, hence exactly four digits for
indices up to 9999. -/
theorem c9_filenames (draws : Nat → ℚ) (frac : ℚ) (count : Nat)
    (land port : Int × Int) (i n : Nat) (hi : i < count) (h1 : 1 ≤ n)
    (h2 : n ≤ 9999) :
    (batchRun draws frac count land port).length = count ∧
    ((batchRun draws frac count land port)[i]?).map
        (fun f => (f.name, f.format, f.quality))
      = some (filename (i + 1), "JPEG", 85) ∧
    (format04 n).length = 4 := by
  refine ⟨?_, ?_, format04_length n h2⟩
  · simp [batchRun]
  · simp [batchRun, List.getElem?_map, List.getElem?_range, hi]

/-- Witness for C9's amended theorem at count 3, index 1, and n = 9999. -/
theorem c9_filenames_witness :
    (batchRun (fun _ => (0 : ℚ)) 0 3 (3000, 2000) (2000, 3000)).length = 3 ∧
    ((batchRun (fun _ => (0 : ℚ)) 0 3 (3000, 2000) (2000, 3000))[1]?).map
        (fun f => (f.name, f.format, f.quality))
      = some (filename (1 + 1), "JPEG", 85) ∧
    (format04 9999).length = 4 :=
  c9_filenames (fun _ => (0 : ℚ)) 0 3 (3000, 2000) (2000, 3000) 1 9999
    (by decide) (by decide) (by decide)
